import Mathlib

/-
  Verification development for a minimal push-based reactive-stream library
  (rx-rs, src/hacking.rs).

  The embedding is a faithful sequential semantics of the Rust code:
  * `IterationResult` mirrors `enum IterationResult { Stop, Continue }`.
  * An `Observer` is a record of pure state-transition functions: the Rust
    `fn next(&mut self, val) -> IterationResult` becomes
    `next : σ → α → σ × IterationResult`, and `fn completed(&mut self)`
    becomes `completed : σ → σ`.
  * Each Rust `Observable::subscribe` implementation becomes a function that
    threads the observer state through the calls the producer makes.
  * The `Arc<Mutex<N>>` shared observer of MergeAll is modelled by threading
    the single observer state through every inner subscription in program
    order (the code is single-threaded at the demo's usage; the lock is a
    no-op in sequential execution).
-/

inductive IterationResult : Type where
  | Stop : IterationResult
  | Continue : IterationResult
deriving Repr, DecidableEq

structure Observer (α : Type u) (σ : Type) : Type u where
  next : σ → α → σ × IterationResult
  completed : σ → σ

/-
  RangeObservable::subscribe (src/hacking.rs lines 67-85):

      let mut state = self.start.clone();
      loop {
          let result = observer.next(state.clone());
          state = match result {
              Stop => self.end.clone(),
              Continue => &state + &A::one()
          };
          if state >= self.end { break; }
      }
      observer.completed();

  The loop body runs at least once (do-while shape).  We model the loop with
  structural recursion on a fuel counter so that the definition computes by
  kernel reduction; both break conditions of the source are kept verbatim:
  on Stop the new state is `end` and `end ≥ end` always breaks, so the Stop
  arm returns directly, and on Continue the guard `state + 1 ≥ e` is tested
  before recursing.  `rangeLoop_fuel_irrelevant` below shows the fuel bound
  used by `rangeSubscribe` never cuts the loop short.
-/
def rangeLoop {σ : Type} (ob : Observer Int σ) (e : Int) : Nat → σ → Int → σ
  | fuel, s, state =>
    match ob.next s state with
    | (s1, .Stop) => s1
    | (s1, .Continue) =>
      if state + 1 ≥ e then s1
      else
        match fuel with
        | 0 => s1
        | fuel' + 1 => rangeLoop ob e fuel' s1 (state + 1)

def rangeSubscribe {σ : Type} (start e : Int) (ob : Observer Int σ) (s : σ) : σ :=
  ob.completed (rangeLoop ob e (e - (start + 1)).toNat s start)

/-
  ValueObservable::subscribe (lines 100-106):
      observer.next(self.value.clone());
      observer.completed();
  The returned directive is ignored.
-/
def valueSubscribe {α σ : Type} (v : α) (ob : Observer α σ) (s : σ) : σ :=
  ob.completed (ob.next s v).1

/-
  MapObserver (lines 131-149): applies `f` to each incoming item, forwards
  to the wrapped observer, passes the directive through, forwards completed.
-/
def MapObserver {α : Type u} {β : Type v} {σ : Type} (f : α → β) (ob : Observer β σ) :
    Observer α σ where
  next := fun s a => ob.next s (f a)
  completed := fun s => ob.completed s

/-
  TakeObserver (lines 233-266):

      fn next(&mut self, val) -> IterationResult {
          let result = if self.remaining > 0 { self.observer.next(val) }
                       else { Stop };
          self.remaining = match result { Stop => 0,
                                          Continue => self.remaining - 1 };
          if self.remaining > 0 { Continue } else { Stop }
      }
      fn completed(&mut self) { self.observer.completed(); }

  The state is the pair (remaining, wrapped observer state).
-/
def TakeObserver {α σ : Type} (ob : Observer α σ) : Observer α (Nat × σ) where
  next := fun p a =>
    let result := if p.1 > 0 then ob.next p.2 a else (p.2, .Stop)
    let remaining := match result.2 with
      | .Stop => 0
      | .Continue => p.1 - 1
    ((remaining, result.1), if remaining > 0 then .Continue else .Stop)
  completed := fun p => (p.1, ob.completed p.2)

/-
  SharedObserver (lines 153-170): locks the shared Arc<Mutex<N>> and forwards
  next/completed.  In the sequential semantics the lock acquisition is a
  no-op, so the wrapper forwards both calls unchanged.
-/
def SharedObserver {α σ : Type} (ob : Observer α σ) : Observer α σ where
  next := fun s a => ob.next s a
  completed := fun s => ob.completed s

/-
  MergeAllObserver (lines 190-212): `next(val)` subscribes the inner
  producer `val` with a fresh SharedObserver handle onto the shared
  downstream observer and then returns Continue unconditionally; `completed`
  locks and forwards completed to the shared downstream observer.  The inner
  subscription procedure is a parameter `subInner` (instantiated by the
  interpreter with the subscribe function of the inner producer).
-/
def MergeAllObserver {α : Type u} {β σ : Type} (subInner : α → Observer β σ → σ → σ)
    (ob : Observer β σ) : Observer α σ where
  next := fun s a => (subInner a (SharedObserver ob) s, .Continue)
  completed := fun s => ob.completed s

/-
  Deep syntax of the pipelines that can be built from the library's
  constructors: range, value, the map and take combinators, and flat_map
  (which the source defines as merge_all over map, lines 48-54).
-/
inductive Obs : Type → Type 1 where
  | range : Int → Int → Obs Int
  | value : {α : Type} → α → Obs α
  | map : {α β : Type} → (α → β) → Obs α → Obs β
  | take : {α : Type} → Nat → Obs α → Obs α
  | flatMap : {α β : Type} → (α → Obs β) → Obs α → Obs β

/-
  The interpreter: each case is the corresponding Rust subscribe.
  * map: MapObservable::subscribe (line 127) wraps the observer in a
    MapObserver and subscribes the source.
  * take: TakeObservable::subscribe (line 229) wraps the observer in a
    TakeObserver with remaining = count and subscribes the source.
  * flatMap: `flat_map(f)` is `MergeAllObservable { source: self.map(f) }`,
    whose subscribe (line 186) hands the source (here pre-composed with the
    map of `f`) a MergeAllObserver over the shared downstream observer; its
    `next` subscribes the inner producer `f a` through a SharedObserver
    handle.
-/
def subscribeD : {α : Type} → Obs α → {σ : Type} → Observer α σ → σ → σ
  | _, .range a b, _, ob, s => rangeSubscribe a b ob s
  | _, .value v, _, ob, s => valueSubscribe v ob s
  | _, .map f src, _, ob, s => subscribeD src (MapObserver f ob) s
  | _, .take n src, _, ob, s => (subscribeD src (TakeObserver ob) (n, s)).2
  | _, .flatMap f src, _, ob, s =>
      subscribeD src
        (MergeAllObserver (fun a ob1 s1 => subscribeD (f a) ob1 s1) ob) s

/-
  A collecting terminal consumer: records the delivered items in order and
  counts the `completed` calls; like the demo's AnonymousObserver it always
  answers Continue.
-/
def collectOb (α : Type) : Observer α (List α × Nat) where
  next := fun s a => ((s.1 ++ [a], s.2), .Continue)
  completed := fun s => (s.1, s.2 + 1)

def collect {α : Type} (p : Obs α) : List α × Nat :=
  subscribeD p (collectOb α) ([], 0)

/-
  Call-trace instrumentation: `instrument ob` behaves exactly like `ob` but
  additionally logs every call the producer makes on it, together with the
  directive the observer answered.
-/
inductive Event (α : Type) : Type where
  | next : α → IterationResult → Event α
  | completed : Event α
deriving Repr, DecidableEq

def instrument {α σ : Type} (ob : Observer α σ) : Observer α (σ × List (Event α)) where
  next := fun p a =>
    let r := ob.next p.1 a
    ((r.1, p.2 ++ [Event.next a r.2]), r.2)
  completed := fun p => (ob.completed p.1, p.2 ++ [Event.completed])

def traceOf {α σ : Type} (p : Obs α) (ob : Observer α σ) (s : σ) : List (Event α) :=
  (subscribeD p (instrument ob) (s, [])).2

/- A stateless consumer answering Continue to every item. -/
def contOb (α : Type) : Observer α Unit where
  next := fun _ _ => ((), .Continue)
  completed := fun _ => ()

/- A stateless consumer answering Stop to every item. -/
def stopOb (α : Type) : Observer α Unit where
  next := fun _ _ => ((), .Stop)
  completed := fun _ => ()

def countCompleted {α : Type} (evs : List (Event α)) : Nat :=
  evs.countP (fun e => match e with | .completed => true | _ => false)

/- Does some `next` call occur after a `completed` call in the trace? -/
def hasNextAfterCompleted {α : Type} : List (Event α) → Bool
  | [] => false
  | Event.completed :: rest => rest.any (fun e => match e with | .next _ _ => true | _ => false)
      || hasNextAfterCompleted rest
  | _ :: rest => hasNextAfterCompleted rest

/- Does some `next` call occur after a `next` call that was answered Stop? -/
def hasNextAfterStop {α : Type} : List (Event α) → Bool
  | [] => false
  | Event.next _ IterationResult.Stop :: rest =>
      rest.any (fun e => match e with | .next _ _ => true | _ => false)
      || hasNextAfterStop rest
  | _ :: rest => hasNextAfterStop rest

/-
  The demo pipeline of `main` (lines 288-297):
  range(0, 10).flat_map(|a| value(a * 10)).take(3).map(|a| a + 5)
-/
def demoPipeline : Obs Int :=
  .map (fun a => a + 5)
    (.take 3 (.flatMap (fun a => Obs.value (a * 10)) (.range 0 10)))

/-
  Reuse of a producer value: Rust's `subscribe` takes `&self`, so the
  producer itself is unchanged by a subscription; `subscribeRef` returns the
  producer alongside the subscription result, and `subscribeTwice` runs two
  subscriptions in sequence against fresh consumer states.
-/
def subscribeRef {α : Type} (p : Obs α) : Obs α × (List α × Nat) :=
  (p, collect p)

def subscribeTwice {α : Type} (p : Obs α) : (List α × Nat) × (List α × Nat) :=
  let r1 := subscribeRef p
  let r2 := subscribeRef r1.1
  (r1.2, r2.2)

def c1Pipeline : Obs Int :=
  .flatMap (fun a => Obs.value a) (.range 0 2)

/-
  Driving an observer with an explicit list of incoming `next` calls:
  returns the final state and the directive answered to each call.  This is
  the "sequence of incoming next calls" of claims C4 and C10, with the
  upstream producer left completely arbitrary (it may keep calling after a
  Stop).
-/
def runObserverList {α : Type} {σ : Type} (ob : Observer α σ) :
    σ → List α → σ × List IterationResult
  | s, [] => (s, [])
  | s, a :: rest =>
    let r := ob.next s a
    let rr := runObserverList ob r.1 rest
    (rr.1, r.2 :: rr.2)

/-
  Modelled from the spec wording of the Take policy (claim C4): while
  remaining > 0, forward the item to the real consumer and decrement; once
  remaining reaches 0 (including right after the decrement), stop forwarding
  further items and return Stop upstream regardless of the real consumer's
  directive; if the real consumer returns Stop, remaining is forced to 0 and
  Stop propagates upstream from then on.
-/
def takeRef {α : Type} {σ : Type} (ob : Observer α σ) :
    Nat → σ → List α → (Nat × σ) × List IterationResult
  | 0, s, [] => ((0, s), [])
  | n + 1, s, [] => ((n + 1, s), [])
  | 0, s, _ :: rest =>
    let r := takeRef ob 0 s rest
    (r.1, .Stop :: r.2)
  | n + 1, s, a :: rest =>
    let c := ob.next s a
    match c.2 with
    | .Stop =>
      let r := takeRef ob 0 c.1 rest
      (r.1, .Stop :: r.2)
    | .Continue =>
      let r := takeRef ob n c.1 rest
      (r.1, (if n > 0 then IterationResult.Continue else .Stop) :: r.2)

/-
  TakeObserver.next with the usize subtraction made explicit: `checkedPred`
  returns none exactly when the Rust expression `self.remaining - 1` would
  underflow (remaining = 0); everything else copies TakeObserver.next.
-/
def checkedPred : Nat → Option Nat
  | 0 => none
  | k + 1 => some k

def takeNextChecked {α : Type} {σ : Type} (ob : Observer α σ) (rem : Nat) (s : σ)
    (a : α) : Option ((Nat × σ) × IterationResult) :=
  let result := if rem > 0 then ob.next s a else (s, .Stop)
  let remainingQ : Option Nat := match result.2 with
    | .Stop => some 0
    | .Continue => checkedPred rem
  remainingQ.map
    (fun remaining => ((remaining, result.1), if remaining > 0 then .Continue else .Stop))

/-
  The consecutive integers x, x+1, ..., x+k-1 (k items starting at x).
-/
def intsFrom (x : Int) : Nat → List Int
  | 0 => []
  | k + 1 => x :: intsFrom (x + 1) k

/-
  The flatMap case above is the beta-reduced form of the Rust composition
  `MapObserver f` around a `MergeAllObserver` whose inner subscription is the
  interpreter itself; this equation is definitional.
-/
theorem subscribeD_flatMap_eq_map_mergeAll {α β σ : Type} (f : α → Obs β)
    (src : Obs α) (ob : Observer β σ) (s : σ) :
    subscribeD (.flatMap f src) ob s =
      subscribeD src
        (MapObserver f
          (MergeAllObserver (fun t ob1 s1 => subscribeD t ob1 s1) ob)) s := rfl

example : collect (Obs.value (5 : Int)) = ([5], 1) := by decide
example : collect (Obs.range 0 3) = ([0, 1, 2], 1) := by decide
example : collect (Obs.range 0 0) = ([0], 1) := by decide
example : collect (Obs.range 5 3) = ([5], 1) := by decide
example : collect demoPipeline = ([5, 15, 25], 11) := by decide
example : traceOf (Obs.flatMap (fun a => Obs.value a) (Obs.range 0 2)) (contOb Int) () =
    [.next 0 .Continue, .completed, .next 1 .Continue, .completed, .completed] := by decide
example : traceOf (Obs.flatMap (fun a => Obs.value a) (Obs.range 0 2)) (stopOb Int) () =
    [.next 0 .Stop, .completed, .next 1 .Stop, .completed, .completed] := by decide

/-- C1: refuted on the code. Subscribing `range(0,2).flat_map(|a| value(a))`
with an always-Continue consumer produces the call trace
next(0), completed, next(1), completed, completed: `completed` is called
three times (once per inner value stream, forwarded by
SharedObserver::completed, plus once when the outer range completes), and a
`next` call follows the first `completed` call — contradicting the claim
that `completed` is called at most once and never followed by `next`. -/
theorem c1_completed_called_thrice_next_after_completed :
    traceOf c1Pipeline (contOb Int) () =
      [.next 0 .Continue, .completed, .next 1 .Continue, .completed, .completed] ∧
    countCompleted (traceOf c1Pipeline (contOb Int) ()) = 3 ∧
    hasNextAfterCompleted (traceOf c1Pipeline (contOb Int) ()) = true := by
  decide

/-- C2 counterexample: the claim's edge case "if start ≥ end it delivers
zero items and calls completed immediately" is false: the subscribe loop of
RangeObservable is do-while shaped and always calls `next(start)` once, so
range(0,0) delivers the item 0 (not zero items), and range(5,3) delivers 5. -/
theorem c2_start_ge_end_delivers_one_item :
    (collect (Obs.range 0 0)).1 = [0] ∧ (collect (Obs.range 0 0)).1 ≠ [] ∧
    collect (Obs.range 5 3) = ([5], 1) := by
  decide

/-- C3: refuted on the code. The demo pipeline
`range(0,10).flat_map(|a| value(a*10)).take(3).map(|a| a+5)` does deliver
exactly the items [5, 15, 25], but `completed` is called 11 times (once per
inner value stream, forwarded by SharedObserver::completed, plus once for
the outer completion), not exactly once. -/
theorem c3_demo_items_right_completed_eleven_times :
    collect demoPipeline = ([5, 15, 25], 11) ∧ (collect demoPipeline).2 ≠ 1 := by
  decide

/-- C6: MergeAllObserver's `next(innerProducer)` subscribes the inner
producer through a fresh SharedObserver handle on the shared downstream
observer and returns Continue to the outer source unconditionally — for
every inner-subscription procedure, every downstream observer and every
state, whatever directives the downstream observer would return. -/
theorem c6_mergeAll_next_always_continue :
    ∀ {α : Type u} {β σ : Type} (subInner : α → Observer β σ → σ → σ)
      (ob : Observer β σ) (s : σ) (a : α),
      ((MergeAllObserver subInner ob).next s a).2 = .Continue ∧
      ((MergeAllObserver subInner ob).next s a).1 = subInner a (SharedObserver ob) s :=
  fun _ _ _ _ => ⟨rfl, rfl⟩

/-- C7: refuted on the code. Subscribing `range(0,2).flat_map(|a| value(a))`
with a consumer that answers Stop to every item: the consumer returns Stop
on next(0), yet the code afterwards calls completed and then next(1) on the
same consumer (MergeAllObserver::next returns Continue to the outer range
regardless, so further inner streams are subscribed), and `completed` is
called three times instead of exactly once.  By contrast a plain Range
subscription does honor the claim: range(0,10) against the same stopping
consumer makes exactly one next call and one completed call, because after
a Stop directive the next value is forced to end and the loop breaks. -/
theorem c7_next_follows_stop_in_merge_pipeline :
    traceOf c1Pipeline (stopOb Int) () =
      [.next 0 .Stop, .completed, .next 1 .Stop, .completed, .completed] ∧
    hasNextAfterStop (traceOf c1Pipeline (stopOb Int) ()) = true ∧
    countCompleted (traceOf c1Pipeline (stopOb Int) ()) = 3 ∧
    traceOf (Obs.range 0 10) (stopOb Int) () = [.next 0 .Stop, .completed] := by
  decide

/-- C8: subscribing the same producer value twice yields two identical,
independent results: `subscribe` takes the producer immutably and all
subscription state (observer states, Take's remaining counter, MergeAll's
shared observer) is created fresh inside each subscribe call, so the second
subscription sees the same producer and delivers the same sequence; in
particular range(0,3) subscribed twice delivers [0,1,2] with one completion
both times. -/
theorem c8_resubscription_independent :
    (∀ (α : Type) (p : Obs α), subscribeTwice p = (collect p, collect p)) ∧
    subscribeTwice (Obs.range 0 3) = (([0, 1, 2], 1), ([0, 1, 2], 1)) :=
  ⟨fun _ _ => rfl, by decide⟩

/-
  Per-call behavior of TakeObserver.next, split on the remaining budget.
-/
theorem takeObserver_next_zero {α : Type} {σ : Type} (ob : Observer α σ) (s : σ) (a : α) :
    (TakeObserver ob).next (0, s) a = ((0, s), .Stop) := rfl

theorem takeObserver_next_succ {α : Type} {σ : Type} (ob : Observer α σ) (n : Nat)
    (s : σ) (a : α) :
    (TakeObserver ob).next (n + 1, s) a =
      match (ob.next s a).2 with
      | .Stop => ((0, (ob.next s a).1), .Stop)
      | .Continue => ((n, (ob.next s a).1), if n > 0 then .Continue else .Stop) := by
  cases h : (ob.next s a).2 with
  | Stop => simp [TakeObserver, h]
  | Continue => simp [TakeObserver, h]

/-- C4: the TakeObserver of the code, driven with any sequence of incoming
next calls and any real consumer, behaves exactly as the spec's stated
policy `takeRef`: items are forwarded and the count decremented while
remaining > 0, the call that makes remaining reach 0 and every later call
answer Stop upstream, a budget of 0 forwards nothing and answers Stop on the
first item, and a Stop from the real consumer forces remaining to 0. -/
theorem c4_takeObserver_matches_policy :
    ∀ {α : Type} {σ : Type} (ob : Observer α σ) (items : List α) (rem : Nat) (s : σ),
      runObserverList (TakeObserver ob) (rem, s) items = takeRef ob rem s items := by
  intro α σ ob items
  induction items with
  | nil =>
    intro rem s
    cases rem <;> rfl
  | cons a rest ih =>
    intro rem s
    cases rem with
    | zero =>
      simp only [runObserverList, takeObserver_next_zero, takeRef, ih]
    | succ n =>
      simp only [runObserverList, takeObserver_next_succ, takeRef]
      cases h : (ob.next s a).2 with
      | Stop => simp only [h, ih]
      | Continue => simp only [h, ih]

/-- C10: remaining = 0 is an absorbing state of TakeObserver: from (0, s),
every incoming next call leaves the state exactly (0, s) (so the wrapped
consumer is never invoked) and answers Stop, for any arbitrarily long
sequence of incoming calls; and the usize decrement never underflows: the
checked variant of TakeObserver.next, which returns none whenever
`remaining - 1` would be evaluated at remaining = 0, agrees with
TakeObserver.next at every budget, state and item. -/
theorem c10_take_zero_absorbing_no_underflow :
    (∀ (α : Type) (σ : Type) (ob : Observer α σ) (s : σ) (items : List α),
      runObserverList (TakeObserver ob) (0, s) items =
        ((0, s), items.map (fun _ => IterationResult.Stop))) ∧
    (∀ (α : Type) (σ : Type) (ob : Observer α σ) (rem : Nat) (s : σ) (a : α),
      takeNextChecked ob rem s a = some ((TakeObserver ob).next (rem, s) a)) := by
  constructor
  · intro α σ ob s items
    induction items with
    | nil => rfl
    | cons a rest ih =>
      simp only [runObserverList, takeObserver_next_zero, ih, List.map]
  · intro α σ ob rem s a
    cases rem with
    | zero => rfl
    | succ n =>
      cases h : (ob.next s a).2 with
      | Stop =>
        simp [takeNextChecked, takeObserver_next_succ, h, checkedPred, TakeObserver]
      | Continue =>
        simp [takeNextChecked, takeObserver_next_succ, h, checkedPred, TakeObserver]

theorem rangeLoop_unfold {σ : Type} (ob : Observer Int σ) (e : Int) (fuel : Nat)
    (s : σ) (state : Int) :
    rangeLoop ob e fuel s state =
      match ob.next s state with
      | (s1, .Stop) => s1
      | (s1, .Continue) =>
        if state + 1 ≥ e then s1
        else
          match fuel with
          | 0 => s1
          | fuel' + 1 => rangeLoop ob e fuel' s1 (state + 1) := by
  rw [rangeLoop]

/-
  The fuel bound used by rangeSubscribe never cuts the loop short: any two
  sufficient fuels give the same run, so the fuel parameter is an artifact
  of the embedding and not part of the semantics.
-/
theorem rangeLoop_fuel_irrelevant {σ : Type} (ob : Observer Int σ) (e : Int) :
    ∀ (f1 f2 : Nat) (s : σ) (state : Int),
      (e - (state + 1)).toNat ≤ f1 → (e - (state + 1)).toNat ≤ f2 →
      rangeLoop ob e f1 s state = rangeLoop ob e f2 s state := by
  intro f1
  induction f1 with
  | zero =>
    intro f2 s state h1 h2
    rw [rangeLoop_unfold, rangeLoop_unfold]
    rcases hnx : ob.next s state with ⟨s1, d⟩
    cases d with
    | Stop => rfl
    | Continue =>
      by_cases hge : state + 1 ≥ e
      · simp [hge]
      · omega
  | succ f1' ih =>
    intro f2 s state h1 h2
    rw [rangeLoop_unfold ob e (f1' + 1), rangeLoop_unfold ob e f2]
    rcases hnx : ob.next s state with ⟨s1, d⟩
    cases d with
    | Stop => rfl
    | Continue =>
      by_cases hge : state + 1 ≥ e
      · simp [hge]
      · simp only [hge, if_false]
        cases f2 with
        | zero => omega
        | succ f2' =>
          exact ih f2' s1 (state + 1) (by omega) (by omega)

theorem rangeLoop_sim {σ1 σ2 : Type} (ob1 : Observer Int σ1) (ob2 : Observer Int σ2)
    (R : σ1 → σ2 → Prop)
    (hn : ∀ s1 s2 a, R s1 s2 →
      R (ob1.next s1 a).1 (ob2.next s2 a).1 ∧ (ob1.next s1 a).2 = (ob2.next s2 a).2)
    (e : Int) :
    ∀ (fuel : Nat) (s1 : σ1) (s2 : σ2) (state : Int), R s1 s2 →
      R (rangeLoop ob1 e fuel s1 state) (rangeLoop ob2 e fuel s2 state) := by
  intro fuel
  induction fuel with
  | zero =>
    intro s1 s2 state hR
    rw [rangeLoop_unfold, rangeLoop_unfold]
    obtain ⟨hr, hd⟩ := hn s1 s2 state hR
    rcases h1 : ob1.next s1 state with ⟨s1n, d1⟩
    rcases h2 : ob2.next s2 state with ⟨s2n, d2⟩
    rw [h1, h2] at hr hd
    simp only at hr hd
    subst hd
    cases d1 with
    | Stop => exact hr
    | Continue =>
      by_cases hge : state + 1 ≥ e <;> simp [hge, hr]
  | succ fuel' ih =>
    intro s1 s2 state hR
    rw [rangeLoop_unfold ob1, rangeLoop_unfold ob2]
    obtain ⟨hr, hd⟩ := hn s1 s2 state hR
    rcases h1 : ob1.next s1 state with ⟨s1n, d1⟩
    rcases h2 : ob2.next s2 state with ⟨s2n, d2⟩
    rw [h1, h2] at hr hd
    simp only at hr hd
    subst hd
    cases d1 with
    | Stop => exact hr
    | Continue =>
      by_cases hge : state + 1 ≥ e
      · simp [hge, hr]
      · simp only [hge, if_false]
        exact ih s1n s2n (state + 1) hr

/-
  Simulation: two observers that stay related by R and always answer the
  same directive receive the same treatment from every pipeline, and the
  final states remain related.  This expresses that a producer's behavior
  depends on its observer only through the directives it returns.
-/
theorem subscribeD_sim :
    ∀ {α : Type} (p : Obs α) {σ1 σ2 : Type} (ob1 : Observer α σ1) (ob2 : Observer α σ2)
      (R : σ1 → σ2 → Prop),
      (∀ s1 s2 a, R s1 s2 →
        R (ob1.next s1 a).1 (ob2.next s2 a).1 ∧ (ob1.next s1 a).2 = (ob2.next s2 a).2) →
      (∀ s1 s2, R s1 s2 → R (ob1.completed s1) (ob2.completed s2)) →
      ∀ s1 s2, R s1 s2 → R (subscribeD p ob1 s1) (subscribeD p ob2 s2) := by
  intro α p
  induction p with
  | range a b =>
    intro σ1 σ2 ob1 ob2 R hn hc s1 s2 hR
    exact hc _ _ (rangeLoop_sim ob1 ob2 R hn b _ s1 s2 a hR)
  | value v =>
    intro σ1 σ2 ob1 ob2 R hn hc s1 s2 hR
    exact hc _ _ (hn s1 s2 v hR).1
  | map f src ih =>
    intro σ1 σ2 ob1 ob2 R hn hc s1 s2 hR
    refine ih (MapObserver f ob1) (MapObserver f ob2) R ?_ ?_ s1 s2 hR
    · intro t1 t2 a hRt
      exact hn t1 t2 (f a) hRt
    · intro t1 t2 hRt
      exact hc t1 t2 hRt
  | take n src ih =>
    intro σ1 σ2 ob1 ob2 R hn hc s1 s2 hR
    have key := ih (TakeObserver ob1) (TakeObserver ob2)
      (fun p q => p.1 = q.1 ∧ R p.2 q.2) ?hnext ?hcomp (n, s1) (n, s2) ⟨rfl, hR⟩
    case hnext =>
      rintro ⟨k1, t1⟩ ⟨k2, t2⟩ a ⟨hk, hRt⟩
      subst hk
      cases k1 with
      | zero =>
        rw [takeObserver_next_zero, takeObserver_next_zero]
        exact ⟨⟨rfl, hRt⟩, rfl⟩
      | succ k =>
        rw [takeObserver_next_succ, takeObserver_next_succ]
        obtain ⟨hr, hd⟩ := hn t1 t2 a hRt
        rcases h1 : ob1.next t1 a with ⟨t1n, d1⟩
        rcases h2 : ob2.next t2 a with ⟨t2n, d2⟩
        rw [h1, h2] at hr hd
        simp only at hr hd
        subst hd
        cases d1 with
        | Stop => exact ⟨⟨rfl, hr⟩, rfl⟩
        | Continue => exact ⟨⟨rfl, hr⟩, rfl⟩
    case hcomp =>
      rintro ⟨k1, t1⟩ ⟨k2, t2⟩ ⟨hk, hRt⟩
      exact ⟨hk, hc t1 t2 hRt⟩
    exact key.2
  | flatMap f src ihf ihsrc =>
    intro σ1 σ2 ob1 ob2 R hn hc s1 s2 hR
    refine ihsrc
      (MergeAllObserver (fun a ob' s' => subscribeD (f a) ob' s') ob1)
      (MergeAllObserver (fun a ob' s' => subscribeD (f a) ob' s') ob2) R ?_ ?_ s1 s2 hR
    · intro t1 t2 a hRt
      constructor
      · exact ihf a (SharedObserver ob1) (SharedObserver ob2) R
          (fun u1 u2 b hu => hn u1 u2 b hu) (fun u1 u2 hu => hc u1 u2 hu) t1 t2 hRt
      · rfl
    · intro t1 t2 hRt
      exact hc t1 t2 hRt

/-- C5: for every source pipeline and every total function f, subscribing
the mapped pipeline to the collecting consumer delivers exactly f applied
element-wise, in order, to the items the un-mapped source delivers to the
collecting consumer, with the same number of completed calls; moreover
MapObserver passes the real consumer's directive through untouched (its
next is the wrapped observer's next at the transformed item) and forwards
completed unchanged. -/
theorem c5_map_is_elementwise :
    ∀ {α β : Type} (f : α → β) (p : Obs α),
      collect (Obs.map f p) = ((collect p).1.map f, (collect p).2) ∧
      (∀ (σ : Type) (ob : Observer β σ) (s : σ) (a : α),
        (MapObserver f ob).next s a = ob.next s (f a)) ∧
      (∀ (σ : Type) (ob : Observer β σ) (s : σ),
        (MapObserver f ob).completed s = ob.completed s) := by
  intro α β f p
  refine ⟨?_, fun _ _ _ _ => rfl, fun _ _ _ => rfl⟩
  have key := subscribeD_sim p (MapObserver f (collectOb β)) (collectOb α)
    (fun s1 s2 => s1.1 = s2.1.map f ∧ s1.2 = s2.2) ?hnext ?hcomp
    ([], 0) ([], 0) ⟨rfl, rfl⟩
  case hnext =>
    rintro ⟨l1, n1⟩ ⟨l2, n2⟩ a ⟨hl, hnn⟩
    simp only at hl hnn
    subst hl
    subst hnn
    simp [MapObserver, collectOb]
  case hcomp =>
    rintro ⟨l1, n1⟩ ⟨l2, n2⟩ ⟨hl, hnn⟩
    simp only at hl hnn
    subst hl
    subst hnn
    simp [MapObserver, collectOb]
  obtain ⟨hitems, hcount⟩ := key
  show subscribeD p (MapObserver f (collectOb β)) ([], 0) = _
  exact Prod.ext hitems hcount

theorem collectOb_next {α : Type} (l : List α) (n : Nat) (a : α) :
    (collectOb α).next (l, n) a = ((l ++ [a], n), .Continue) := rfl

theorem collectOb_completed {α : Type} (l : List α) (n : Nat) :
    (collectOb α).completed (l, n) = (l, n + 1) := rfl

theorem rangeLoop_collect {e : Int} :
    ∀ (fuel : Nat) (st : Int) (l : List Int) (n : Nat),
      (e - (st + 1)).toNat ≤ fuel →
      rangeLoop (collectOb Int) e fuel (l, n) st =
        (l ++ st :: intsFrom (st + 1) (e - (st + 1)).toNat, n) := by
  intro fuel
  induction fuel with
  | zero =>
    intro st l n hfuel
    rw [rangeLoop_unfold]
    have h0 : (e - (st + 1)).toNat = 0 := by omega
    by_cases hge : st + 1 ≥ e
    · simp [collectOb_next, hge, h0, intsFrom]
    · omega
  | succ fuel' ih =>
    intro st l n hfuel
    rw [rangeLoop_unfold]
    by_cases hge : st + 1 ≥ e
    · have h0 : (e - (st + 1)).toNat = 0 := by omega
      simp [collectOb_next, hge, h0, intsFrom]
    · have hpos : (e - (st + 1)).toNat = (e - (st + 2)).toNat + 1 := by omega
      simp only [collectOb_next, hge, if_false, ge_iff_le]
      rw [ih (st + 1) (l ++ [st]) n (by omega)]
      rw [hpos]
      simp [intsFrom]
      congr 1
      omega

/-- C2 amended: for a Range(start, end) subscription whose consumer always
answers Continue (the collecting consumer), if start < end the delivered
items are exactly start, start+1, ..., end-1 followed by exactly one
completed call; if start ≥ end the subscription delivers exactly one item,
start, and then exactly one completed call (the loop body is do-while
shaped, so the first item is pushed before the bound is ever checked). -/
theorem c2_range_delivery_amended :
    ∀ (start e : Int),
      collect (Obs.range start e) =
        ((if start < e then intsFrom start (e - start).toNat else [start]), 1) := by
  intro start e
  show rangeSubscribe start e (collectOb Int) ([], 0) = _
  unfold rangeSubscribe
  rw [rangeLoop_collect ((e - (start + 1)).toNat) start [] 0 (le_refl _)]
  rw [collectOb_completed]
  by_cases h : start < e
  · have hk : (e - start).toNat = (e - (start + 1)).toNat + 1 := by omega
    simp [h, hk, intsFrom]
  · have hk : (e - (start + 1)).toNat = 0 := by omega
    simp [h, hk, intsFrom]
